import Mathlib

/-!
Verification development for `scripts/replace_app_icon.py`, a single-script
pipeline that loads a source image, center-crops it to a square, turns
near-white pixels transparent, resizes to each pixel size of a fixed size
specification (deduplicating resize work by size), and writes one PNG per
filename into a fixed output directory.

The shallow embedding below models rasters as width/height plus a row-major
pixel list, the PIL operations used by the script (`convert`, `crop`,
`getdata`/`putdata`, the `seen_size` dict) as pure list functions, and the
filesystem as an association list of file names to byte contents.  The
resampling filter (`Image.Resampling.LANCZOS`) and the PNG encoder live in
the Pillow library, not in this repository, so they are abstract parameters
`resize` and `encode`; every theorem holds for all choices of them (with a
dimension-correctness hypothesis on `resize` where dimensions matter).
-/

/-- An RGB pixel: (r, g, b), each channel on the 0–255 scale. -/
abbrev RGBPixel := Nat × Nat × Nat

/-- An RGBA pixel: (r, g, b, a). -/
abbrev RGBAPixel := Nat × Nat × Nat × Nat

/-- A three-channel raster: width, height and a row-major pixel list
(the result of `Image.open(SRC).convert("RGB")`). -/
structure RGBImage where
  width : Nat
  height : Nat
  data : List RGBPixel
deriving DecidableEq, Repr

/-- A four-channel raster (mode "RGBA"). -/
structure RGBAImage where
  width : Nat
  height : Nat
  data : List RGBAPixel
deriving DecidableEq, Repr

/-- PIL `img.convert("RGBA")` on an RGB image: every pixel gains alpha 255. -/
def convertRGBA (img : RGBImage) : RGBAImage :=
  ⟨img.width, img.height, img.data.map (fun p => (p.1, p.2.1, p.2.2, 255))⟩

/-- The size specification: `SIZES` from the script, an ordered list of
(pixel_size, filenames) pairs. -/
def SIZES : List (Nat × List String) :=
  [ (20, ["icon-20.png"]),
    (40, ["icon-20@2x.png", "icon-20@2x-ipad.png"]),
    (60, ["icon-20@3x.png"]),
    (29, ["icon-29.png"]),
    (58, ["icon-29@2x.png", "icon-29@2x-ipad.png"]),
    (87, ["icon-29@3x.png"]),
    (40, ["icon-40.png"]),
    (80, ["icon-40@2x.png", "icon-40@2x-ipad.png"]),
    (120, ["icon-40@3x.png"]),
    (120, ["icon-60@2x.png"]),
    (180, ["icon-60@3x.png"]),
    (76, ["icon-76.png"]),
    (152, ["icon-76@2x.png"]),
    (167, ["icon-83.5@2x.png"]),
    (1024, ["icon-1024.png"]),
    (16, ["icon-mac-16.png"]),
    (32, ["icon-mac-16@2x.png", "icon-mac-32.png"]),
    (64, ["icon-mac-32@2x.png"]),
    (128, ["icon-mac-128.png"]),
    (256, ["icon-mac-128@2x.png", "icon-mac-256.png"]),
    (512, ["icon-mac-256@2x.png", "icon-mac-512.png"]),
    (1024, ["icon-mac-512@2x.png"]) ]

/-- The per-pixel rule of `make_background_transparent`: if all three color
channels are at least the threshold the pixel keeps its RGB and gets alpha 0,
otherwise the pixel is appended unchanged. -/
def transparentizePixel (threshold : Nat) (p : RGBAPixel) : RGBAPixel :=
  if threshold ≤ p.1 ∧ threshold ≤ p.2.1 ∧ threshold ≤ p.2.2.1
  then (p.1, p.2.1, p.2.2.1, 0)
  else p

/-- The function `make_background_transparent(img, threshold=235)`: convert to RGBA, then
rebuild the pixel list item by item (`getdata` / `putdata` over the full
same-length list is exactly a per-pixel map). -/
def make_background_transparent (img : RGBImage) (threshold : Nat := 235) :
    RGBAImage :=
  let rgba := convertRGBA img
  ⟨rgba.width, rgba.height, rgba.data.map (transparentizePixel threshold)⟩

/-- PIL `img.crop((left, top, right, bottom))`: the (right−left)×(bottom−top)
sub-raster whose pixel (x, y) is the source pixel (left+x, top+y). -/
def cropRGB (img : RGBImage) (left top right bottom : Nat) : RGBImage :=
  ⟨right - left, bottom - top,
    (List.range (bottom - top)).flatMap (fun y =>
      (List.range (right - left)).map (fun x =>
        img.data.getD ((top + y) * img.width + (left + x)) (0, 0, 0)))⟩

/-- The horizontal crop offset computed in `main`: `left = (w - s) // 2`
with `s = min(w, h)`. -/
def squareCropLeft (img : RGBImage) : Nat :=
  (img.width - min img.width img.height) / 2

/-- The vertical crop offset computed in `main`: `top = (h - s) // 2`
with `s = min(w, h)`. -/
def squareCropTop (img : RGBImage) : Nat :=
  (img.height - min img.width img.height) / 2

/-- The square-crop step of `main`: crop to a centered square of side
`min(w, h)` when the image is not already square, otherwise do nothing. -/
def squareCrop (img : RGBImage) : RGBImage :=
  if img.width ≠ img.height then
    let s := min img.width img.height
    let left := squareCropLeft img
    let top := squareCropTop img
    cropRGB img left top (left + s) (top + s)
  else img

/-- State of the resize-and-write loop: the `seen_size` dict (an association
list from pixel size to the cached resized raster), the files saved so far in
write order (filename paired with the raster handed to `save`), and — for
reasoning about deduplication — the sizes for which `im.resize` was actually
invoked, in invocation order. -/
structure LoopState where
  cache : List (Nat × RGBAImage)
  saved : List (String × RGBAImage)
  calls : List Nat
deriving Repr

/-- One iteration of `for size, filenames in SIZES`: resize (and record the
call) if `size not in seen_size`, then save `seen_size[size]` once per
filename.  `seen_size[size]` is always present at the save; `getD` supplies
an arbitrary default that is never reached. -/
def processEntry (resize : RGBAImage → Nat → RGBAImage) (img : RGBAImage)
    (st : LoopState) (entry : Nat × List String) : LoopState :=
  let size := entry.1
  let filenames := entry.2
  let st₁ :=
    if (List.lookup size st.cache).isNone then
      { st with
        cache := (size, resize img size) :: st.cache
        calls := st.calls ++ [size] }
    else st
  let im := (List.lookup size st₁.cache).getD img
  { st₁ with saved := st₁.saved ++ filenames.map (fun name => (name, im)) }

/-- The resize-and-write loop of `main`, starting from an empty `seen_size`. -/
def runLoop (resize : RGBAImage → Nat → RGBAImage) (img : RGBAImage)
    (entries : List (Nat × List String)) : LoopState :=
  entries.foldl (processEntry resize img) ⟨[], [], []⟩

/-- The output directory as an association list from file name to byte
contents (most recent write first). -/
abbrev FileSystem := List (String × List Nat)

/-- Writing a file: the name now maps to `content`, any previous entry for
the same name is gone, all other files untouched. -/
def fsWrite (fs : FileSystem) (name : String) (content : List Nat) :
    FileSystem :=
  (name, content) :: fs.filter (fun e => e.1 ≠ name)

/-- Reading a file by name. -/
def fsRead (fs : FileSystem) (name : String) : Option (List Nat) :=
  List.lookup name fs

/-- Performing a list of writes in order. -/
def applyWrites (fs : FileSystem) (writes : List (String × List Nat)) :
    FileSystem :=
  writes.foldl (fun acc e => fsWrite acc e.1 e.2) fs

/-- The world `main` acts on: whether the output directory exists, and its
files. -/
structure World where
  dirExists : Bool
  files : FileSystem
deriving Repr

namespace ReplaceAppIcon

/-- The script entry point `main()`.  `loadResult` models
`Image.open(SRC).convert("RGB")`: `none`
when the source is missing or not decodable (PIL raises; the exception is
unhandled).  `resize` is PIL's LANCZOS resampling and `encode` its PNG
encoder, both deterministic library functions abstracted as parameters.
Step order follows the script: `out_dir.mkdir(parents=True, exist_ok=True)`
first, then the load, crop, transparency pass, and the dedupe loop whose
saves become filesystem writes in order. -/
def main (resize : RGBAImage → Nat → RGBAImage) (encode : RGBAImage → List Nat)
    (loadResult : Option RGBImage) (w : World) : World × Except Unit Unit :=
  let w₁ : World := { w with dirExists := true }
  match loadResult with
  | none => (w₁, Except.error ())
  | some im₀ =>
      let im₁ := squareCrop im₀
      let im₂ := make_background_transparent im₁
      let st := runLoop resize im₂ SIZES
      let writes := st.saved.map (fun e => (e.1, encode e.2))
      ({ w₁ with files := applyWrites w₁.files writes }, Except.ok ())

end ReplaceAppIcon

/-- The list of filenames enumerated in the size specification, in
declaration order. -/
def specFilenames : List String := SIZES.flatMap (fun e => e.2)

/-- The pixel dimension the specification declares for a filename: the size
of the first entry listing it. -/
def specSize (name : String) : Option Nat :=
  (SIZES.find? (fun e => name ∈ e.2)).map (fun e => e.1)

/-- Pure shadow of the dedupe bookkeeping: the sizes for which the loop
invokes `im.resize`, given the sizes of the remaining entries and the keys
already in `seen_size` (first occurrences only, in order). -/
def newSizes : List Nat → List Nat → List Nat
  | [], _ => []
  | s :: rest, seen =>
      if s ∈ seen then newSizes rest seen else s :: newSizes rest (s :: seen)

/-- A degenerate stand-in for the library resampler, used only to
instantiate theorems at concrete inputs: it returns an image with the
requested dimensions and no pixel data. -/
def testResize (_img : RGBAImage) (s : Nat) : RGBAImage := ⟨s, s, []⟩

/-- A degenerate stand-in for the PNG encoder, used only to instantiate
theorems at concrete inputs. -/
def testEncode (img : RGBAImage) : List Nat := [img.width, img.height]

/-- A small concrete source image for instantiating theorems. -/
def testImage : RGBImage := ⟨2, 1, [(255, 255, 255), (10, 20, 30)]⟩

/-- An empty world: no output directory, no files. -/
def emptyWorld : World := ⟨false, []⟩

/-! ### Association-list lookup facts -/

lemma lookup_mem {α β : Type} [BEq α] [LawfulBEq α] :
    ∀ {l : List (α × β)} {a : α} {b : β},
      List.lookup a l = some b → (a, b) ∈ l := by
  intro l
  induction l with
  | nil => intro a b h; simp [List.lookup] at h
  | cons p t ih =>
      intro a b h
      rcases p with ⟨k, v⟩
      rw [List.lookup_cons] at h
      by_cases hk : a == k
      · simp [hk] at h
        subst h
        simp [List.mem_cons]
        left
        exact eq_of_beq hk
      · simp [hk] at h
        exact List.mem_cons_of_mem _ (ih h)

lemma lookup_eq_none_iff {α β : Type} [BEq α] [LawfulBEq α] :
    ∀ {l : List (α × β)} {a : α},
      List.lookup a l = none ↔ a ∉ l.map Prod.fst := by
  intro l
  induction l with
  | nil => intro a; simp [List.lookup]
  | cons p t ih =>
      intro a
      rcases p with ⟨k, v⟩
      rw [List.lookup_cons]
      by_cases hk : a == k
      · have : a = k := eq_of_beq hk
        simp [hk, this]
      · have : ¬ a = k := fun h => hk (by simp [h])
        simp [hk, this, ih]

/-! ### Characterizing the resize-and-write loop -/

/-- Invariant of the `seen_size` dict: every cached raster is the resize of
the processed image at its key. -/
def cacheGood (resize : RGBAImage → Nat → RGBAImage) (img : RGBAImage)
    (cache : List (Nat × RGBAImage)) : Prop :=
  ∀ p ∈ cache, p.2 = resize img p.1

lemma processEntry_spec (resize : RGBAImage → Nat → RGBAImage)
    (img : RGBAImage) (st : LoopState) (e : Nat × List String)
    (hc : cacheGood resize img st.cache) :
    cacheGood resize img (processEntry resize img st e).cache ∧
    (processEntry resize img st e).cache.map Prod.fst =
      (if e.1 ∈ st.cache.map Prod.fst then st.cache.map Prod.fst
       else e.1 :: st.cache.map Prod.fst) ∧
    (processEntry resize img st e).saved =
      st.saved ++ e.2.map (fun n => (n, resize img e.1)) ∧
    (processEntry resize img st e).calls =
      (if e.1 ∈ st.cache.map Prod.fst then st.calls else st.calls ++ [e.1]) := by
  rcases hlk : List.lookup e.1 st.cache with _ | imc
  · have hmem : e.1 ∉ st.cache.map Prod.fst := lookup_eq_none_iff.mp hlk
    have hself : List.lookup e.1 ((e.1, resize img e.1) :: st.cache) =
        some (resize img e.1) := by
      rw [List.lookup_cons]; simp
    refine ⟨?_, ?_, ?_, ?_⟩
    · intro p hp
      simp only [processEntry, hlk, Option.isNone_none, if_pos] at hp
      simp only [List.mem_cons] at hp
      rcases hp with hp | hp
      · subst hp; rfl
      · exact hc p hp
    · simp [processEntry, hlk, hmem]
    · simp [processEntry, hlk, hself]
    · simp [processEntry, hlk, hmem]
  · have hmem : e.1 ∈ st.cache.map Prod.fst := by
      by_contra hno
      rw [← lookup_eq_none_iff] at hno
      rw [hlk] at hno
      exact Option.some_ne_none _ hno
    have himc : imc = resize img e.1 := hc _ (lookup_mem hlk)
    refine ⟨?_, ?_, ?_, ?_⟩
    · intro p hp
      simp only [processEntry, hlk, Option.isNone_some, if_neg] at hp
      simp at hp
      exact hc p hp
    · simp [processEntry, hlk, hmem]
    · simp [processEntry, hlk, himc]
    · simp [processEntry, hlk, hmem]

lemma foldl_processEntry_spec (resize : RGBAImage → Nat → RGBAImage)
    (img : RGBAImage) :
    ∀ (entries : List (Nat × List String)) (st : LoopState),
      cacheGood resize img st.cache →
      cacheGood resize img
          (entries.foldl (processEntry resize img) st).cache ∧
      (entries.foldl (processEntry resize img) st).saved =
        st.saved ++
          entries.flatMap (fun e => e.2.map (fun n => (n, resize img e.1))) ∧
      (entries.foldl (processEntry resize img) st).calls =
        st.calls ++ newSizes (entries.map Prod.fst) (st.cache.map Prod.fst) := by
  intro entries
  induction entries with
  | nil => intro st hc; simp [newSizes, hc]
  | cons e rest ih =>
      intro st hc
      rcases processEntry_spec resize img st e hc with ⟨hg, hkeys, hsaved, hcalls⟩
      rcases ih (processEntry resize img st e) hg with ⟨ig, isaved, icalls⟩
      refine ⟨by simpa using ig, ?_, ?_⟩
      · simp only [List.foldl_cons] at *
        rw [isaved, hsaved]
        simp [List.append_assoc]
      · simp only [List.foldl_cons] at *
        rw [icalls, hcalls, hkeys]
        by_cases hmem : e.1 ∈ st.cache.map Prod.fst
        · simp [hmem, newSizes]
        · simp [hmem, newSizes, List.append_assoc]

lemma runLoop_saved (resize : RGBAImage → Nat → RGBAImage) (img : RGBAImage) :
    (runLoop resize img SIZES).saved =
      SIZES.flatMap (fun e => e.2.map (fun n => (n, resize img e.1))) := by
  have h := foldl_processEntry_spec resize img SIZES ⟨[], [], []⟩
    (by intro p hp; simp at hp)
  simpa [runLoop] using h.2.1

lemma runLoop_calls (resize : RGBAImage → Nat → RGBAImage) (img : RGBAImage) :
    (runLoop resize img SIZES).calls =
      [20, 40, 60, 29, 58, 87, 80, 120, 180, 76, 152, 167, 1024,
       16, 32, 64, 128, 256, 512] := by
  have h := foldl_processEntry_spec resize img SIZES ⟨[], [], []⟩
    (by intro p hp; simp at hp)
  have hcalls := h.2.2
  simp only [runLoop]
  rw [hcalls]
  decide

lemma runLoop_saved_names (resize : RGBAImage → Nat → RGBAImage)
    (img : RGBAImage) :
    (runLoop resize img SIZES).saved.map Prod.fst = specFilenames := by
  rw [runLoop_saved, specFilenames, List.map_flatMap]
  refine List.flatMap_congr ?_
  intro e he
  rw [List.map_map]
  show List.map (fun n => n) e.2 = e.2
  exact List.map_id' e.2

/-! ### Filesystem facts -/

lemma fsRead_fsWrite_self (fs : FileSystem) (n : String) (c : List Nat) :
    fsRead (fsWrite fs n c) n = some c := by
  simp [fsRead, fsWrite, List.lookup_cons]

lemma lookup_filter_out {m : String} :
    ∀ (fs : FileSystem) (n : String), n ≠ m →
      List.lookup n (fs.filter (fun e => e.1 ≠ m)) = List.lookup n fs := by
  intro fs
  induction fs with
  | nil => intro n h; simp
  | cons p t ih =>
      intro n h
      rcases p with ⟨k, v⟩
      rw [List.filter_cons]
      by_cases hk : k = m
      · have hcond : ¬ ((fun (e : String × List Nat) => decide (e.1 ≠ m)) (k, v) = true) := by
          simp [hk]
        rw [if_neg hcond]
        have hnk : (n == k) = false := by
          subst hk
          exact beq_false_of_ne h
        rw [List.lookup_cons, hnk]
        exact ih n h
      · have hcond : (fun (e : String × List Nat) => decide (e.1 ≠ m)) (k, v) = true := by
          simp [hk]
        rw [if_pos hcond]
        rw [List.lookup_cons, List.lookup_cons]
        cases hnk : n == k with
        | true => rfl
        | false => exact ih n h

lemma fsRead_fsWrite_ne (fs : FileSystem) (n m : String) (c : List Nat)
    (h : n ≠ m) : fsRead (fsWrite fs m c) n = fsRead fs n := by
  have hnm : (n == m) = false := beq_false_of_ne h
  simp only [fsRead, fsWrite, List.lookup_cons, hnm]
  exact lookup_filter_out fs n h

lemma fsRead_applyWrites_not_mem :
    ∀ (ws : List (String × List Nat)) (fs : FileSystem) (n : String),
      n ∉ ws.map Prod.fst →
      fsRead (applyWrites fs ws) n = fsRead fs n := by
  intro ws
  induction ws with
  | nil => intro fs n h; rfl
  | cons w t ih =>
      intro fs n h
      simp only [List.map_cons, List.mem_cons] at h
      push_neg at h
      have : applyWrites fs (w :: t) = applyWrites (fsWrite fs w.1 w.2) t := rfl
      rw [this, ih _ n h.2, fsRead_fsWrite_ne _ _ _ _ h.1]

lemma fsRead_applyWrites_mem :
    ∀ (ws : List (String × List Nat)) (fs : FileSystem) (n : String)
      (c : List Nat), (ws.map Prod.fst).Nodup → (n, c) ∈ ws →
      fsRead (applyWrites fs ws) n = some c := by
  intro ws
  induction ws with
  | nil => intro fs n c _ h; simp at h
  | cons w t ih =>
      intro fs n c hnd hmem
      have hstep : applyWrites fs (w :: t) = applyWrites (fsWrite fs w.1 w.2) t := rfl
      simp only [List.map_cons, List.nodup_cons] at hnd
      rcases List.mem_cons.mp hmem with heq | htail
      · have hn : w.1 = n := by rw [← heq]
        have hc : w.2 = c := by rw [← heq]
        have hnot : n ∉ t.map Prod.fst := by rw [← hn]; exact hnd.1
        rw [hstep, fsRead_applyWrites_not_mem t _ n hnot, hn, hc,
          fsRead_fsWrite_self]
      · rw [hstep]
        exact ih _ n c hnd.2 htail

lemma applyWrites_canonical :
    ∀ (ws : List (String × List Nat)), (ws.map Prod.fst).Nodup →
      ∀ fs : FileSystem, applyWrites fs ws =
        ws.reverse ++ fs.filter (fun e => e.1 ∉ ws.map Prod.fst) := by
  intro ws
  induction ws with
  | nil => intro _ fs; simp [applyWrites]
  | cons w t ih =>
      intro hnd fs
      simp only [List.map_cons, List.nodup_cons] at hnd
      have hstep : applyWrites fs (w :: t) = applyWrites (fsWrite fs w.1 w.2) t := rfl
      rw [hstep, ih hnd.2]
      have hw : (fun (e : String × List Nat) => decide (e.1 ∉ t.map Prod.fst)) (w.1, w.2) = true := by
        simp [hnd.1]
      simp only [fsWrite, List.filter_cons, hw, if_pos]
      rw [List.filter_filter]
      have hpred : ∀ e ∈ fs,
          ((fun (e : String × List Nat) => decide (e.1 ∉ t.map Prod.fst)) e &&
            (fun (e : String × List Nat) => decide (e.1 ≠ w.1)) e) =
          (fun (e : String × List Nat) =>
            decide (e.1 ∉ (w :: t).map Prod.fst)) e := by
        intro e _
        by_cases h1 : e.1 = w.1 <;> by_cases h2 : e.1 ∈ t.map Prod.fst <;>
          simp [h1, h2]
      rw [List.filter_congr hpred]
      simp [List.append_assoc]

lemma applyWrites_idem (ws : List (String × List Nat))
    (hnd : (ws.map Prod.fst).Nodup) (fs : FileSystem) :
    applyWrites (applyWrites fs ws) ws = applyWrites fs ws := by
  rw [applyWrites_canonical ws hnd fs,
    applyWrites_canonical ws hnd (ws.reverse ++ fs.filter _),
    List.filter_append]
  have h1 : ws.reverse.filter
      (fun e => decide (e.1 ∉ ws.map Prod.fst)) = [] := by
    apply List.filter_eq_nil_iff.mpr
    intro e he
    have : e.1 ∈ ws.map Prod.fst :=
      List.mem_map_of_mem Prod.fst (List.mem_reverse.mp he)
    simp [this]
  have h2 : (fs.filter (fun e => decide (e.1 ∉ ws.map Prod.fst))).filter
      (fun e => decide (e.1 ∉ ws.map Prod.fst)) =
      fs.filter (fun e => decide (e.1 ∉ ws.map Prod.fst)) := by
    rw [List.filter_filter]
    apply List.filter_congr
    intro a _
    simp
  rw [h1, h2]
  simp

/-! ### Facts about the size specification -/

lemma specFilenames_nodup : specFilenames.Nodup := by decide

lemma specFilenames_length : specFilenames.length = 28 := by decide

lemma SIZES_length : SIZES.length = 22 := by decide

lemma mem_flatMap_unique {α β : Type} (f : α → List β) :
    ∀ (l : List α), (l.flatMap f).Nodup →
      ∀ a ∈ l, ∀ b ∈ l, ∀ x, x ∈ f a → x ∈ f b → a = b := by
  intro l
  induction l with
  | nil => intro _ a ha; simp at ha
  | cons c t ih =>
      intro hnd a ha b hb x hxa hxb
      rw [List.flatMap_cons, List.nodup_append] at hnd
      rcases List.mem_cons.mp ha with rfl | ha'
      · rcases List.mem_cons.mp hb with rfl | hb'
        · rfl
        · exact absurd (List.mem_flatMap.mpr ⟨b, hb', hxb⟩)
            (fun hx => hnd.2.2 hxa hx)
      · rcases List.mem_cons.mp hb with rfl | hb'
        · exact absurd (List.mem_flatMap.mpr ⟨a, ha', hxa⟩)
            (fun hx => hnd.2.2 hxb hx)
        · exact ih hnd.2.1 a ha' b hb' x hxa hxb

lemma specSize_eq_some {n : String} {s : Nat} (h : specSize n = some s) :
    ∃ e ∈ SIZES, n ∈ e.2 ∧ e.1 = s := by
  unfold specSize at h
  rcases Option.map_eq_some'.mp h with ⟨e, hfind, hs⟩
  have hp := List.find?_some hfind
  exact ⟨e, List.mem_of_find?_eq_some hfind, of_decide_eq_true hp, hs⟩

lemma saved_complete (resize : RGBAImage → Nat → RGBAImage) (img : RGBAImage)
    {s : Nat} {names : List String} {n : String}
    (he : (s, names) ∈ SIZES) (hn : n ∈ names) :
    (n, resize img s) ∈ (runLoop resize img SIZES).saved := by
  rw [runLoop_saved]
  exact List.mem_flatMap.mpr
    ⟨(s, names), he, List.mem_map_of_mem (fun n => (n, resize img s)) hn⟩

lemma saved_content (resize : RGBAImage → Nat → RGBAImage) (img : RGBAImage)
    {n : String} {im : RGBAImage}
    (hmem : (n, im) ∈ (runLoop resize img SIZES).saved)
    {s : Nat} (hs : specSize n = some s) :
    im = resize img s := by
  rw [runLoop_saved] at hmem
  rcases List.mem_flatMap.mp hmem with ⟨e, heS, hin⟩
  rcases List.mem_map.mp hin with ⟨n', hn', heq⟩
  have hne : n' = n := congrArg Prod.fst heq
  have him : resize img e.1 = im := congrArg Prod.snd heq
  rcases specSize_eq_some hs with ⟨e', he'S, hne', he's⟩
  have hee : e = e' := by
    refine mem_flatMap_unique (fun e : Nat × List String => e.2) SIZES
      (show (SIZES.flatMap (fun e => e.2)).Nodup from specFilenames_nodup)
      e heS e' he'S n ?_ hne'
    rw [← hne]; exact hn'
  rw [← him, hee, he's]

lemma mainWrites_names (resize : RGBAImage → Nat → RGBAImage)
    (encode : RGBAImage → List Nat) (img : RGBAImage) :
    ((runLoop resize img SIZES).saved.map
      (fun e => (e.1, encode e.2))).map Prod.fst = specFilenames := by
  rw [List.map_map]
  show (runLoop resize img SIZES).saved.map (fun e => e.1) = specFilenames
  exact runLoop_saved_names resize img

/-! ### Reducing `main` -/

lemma main_some (resize : RGBAImage → Nat → RGBAImage)
    (encode : RGBAImage → List Nat) (im₀ : RGBImage) (w : World) :
    ReplaceAppIcon.main resize encode (some im₀) w =
      (⟨true, applyWrites w.files
          ((runLoop resize (make_background_transparent (squareCrop im₀))
              SIZES).saved.map (fun e => (e.1, encode e.2)))⟩,
        Except.ok ()) := rfl

lemma main_none (resize : RGBAImage → Nat → RGBAImage)
    (encode : RGBAImage → List Nat) (w : World) :
    ReplaceAppIcon.main resize encode none w =
      (⟨true, w.files⟩, Except.error ()) := rfl

/-! ### Claims -/

/-- C2: for every loaded image with width ≠ height, the crop step produces a
square of side `min(width, height)`, with crop offset
`(larger_dim - smaller_dim) // 2` (integer floor division) on the larger axis
and `0` on the shorter axis; if width = height, no crop occurs and the image
is unchanged. -/
theorem claim_C2 (img : RGBImage) :
    (img.width = img.height → squareCrop img = img) ∧
    (img.width ≠ img.height →
      (squareCrop img).width = min img.width img.height ∧
      (squareCrop img).height = min img.width img.height ∧
      squareCrop img = cropRGB img (squareCropLeft img) (squareCropTop img)
        (squareCropLeft img + min img.width img.height)
        (squareCropTop img + min img.width img.height) ∧
      (if img.height < img.width
        then squareCropLeft img =
            (max img.width img.height - min img.width img.height) / 2 ∧
          squareCropTop img = 0
        else squareCropLeft img = 0 ∧
          squareCropTop img =
            (max img.width img.height - min img.width img.height) / 2)) := by
  constructor
  · intro h
    simp [squareCrop, h]
  · intro h
    refine ⟨?_, ?_, ?_, ?_⟩
    · simp only [squareCrop, if_pos h, cropRGB]
      omega
    · simp only [squareCrop, if_pos h, cropRGB]
      omega
    · simp only [squareCrop, if_pos h]
    · by_cases hlt : img.height < img.width
      · rw [if_pos hlt]
        constructor
        · simp only [squareCropLeft]
          omega
        · simp only [squareCropTop]
          omega
      · rw [if_neg hlt]
        constructor
        · simp only [squareCropLeft]
          omega
        · simp only [squareCropTop]
          omega

/-- Witness for C2: a 3×3 image is left unchanged; a 5×3 image is cropped to
a 3×3 square with offsets left = 1, top = 0. -/
theorem claim_C2_witness :
    squareCrop (⟨3, 3, []⟩ : RGBImage) = ⟨3, 3, []⟩ ∧
    (squareCrop (⟨5, 3, []⟩ : RGBImage)).width = 3 ∧
    (squareCrop (⟨5, 3, []⟩ : RGBImage)).height = 3 ∧
    squareCropLeft (⟨5, 3, []⟩ : RGBImage) = 1 ∧
    squareCropTop (⟨5, 3, []⟩ : RGBImage) = 0 :=
  ⟨(claim_C2 ⟨3, 3, []⟩).1 rfl,
   ((claim_C2 ⟨5, 3, []⟩).2 (by decide)).1,
   ((claim_C2 ⟨5, 3, []⟩).2 (by decide)).2.1,
   (((claim_C2 ⟨5, 3, []⟩).2 (by decide)).2.2.2 : _ ∧ _).1,
   (((claim_C2 ⟨5, 3, []⟩).2 (by decide)).2.2.2 : _ ∧ _).2⟩

/-- C3: for every pixel of the image passed to `make_background_transparent`
(default threshold 235): if all of R, G, B are ≥ 235 the output pixel keeps
its RGB and has alpha 0; otherwise the pixel is unchanged, so for an input
loaded as RGB the output alpha is 255 and RGB are unchanged.  The decision
for each pixel is independent of every other pixel. -/
theorem claim_C3 (img : RGBImage) (i : Nat) (r g b : Nat)
    (h : img.data[i]? = some (r, g, b)) :
    (make_background_transparent img).data[i]? =
      some (if 235 ≤ r ∧ 235 ≤ g ∧ 235 ≤ b
            then (r, g, b, 0) else (r, g, b, 255)) ∧
    (make_background_transparent img).data.length = img.data.length ∧
    (∀ img₂ : RGBImage, img₂.data[i]? = some (r, g, b) →
      (make_background_transparent img₂).data[i]? =
        (make_background_transparent img).data[i]?) := by
  have key : ∀ im : RGBImage, im.data[i]? = some (r, g, b) →
      (make_background_transparent im).data[i]? =
        some (if 235 ≤ r ∧ 235 ≤ g ∧ 235 ≤ b
              then (r, g, b, 0) else (r, g, b, 255)) := by
    intro im him
    show ((im.data.map (fun p => (p.1, p.2.1, p.2.2, 255))).map
        (transparentizePixel 235))[i]? = _
    rw [List.getElem?_map, List.getElem?_map, him]
    simp only [Option.map_some']
    by_cases hc : 235 ≤ r ∧ 235 ≤ g ∧ 235 ≤ b
    · simp [transparentizePixel, hc]
    · simp [transparentizePixel, hc]
  refine ⟨key img h, ?_, fun img₂ h₂ => by rw [key img₂ h₂, key img h]⟩
  simp [make_background_transparent, convertRGBA]

/-- Witness for C3: in a two-pixel image, the white pixel (255,255,255) comes
out as (255,255,255,0) and the dark pixel (10,20,30) as (10,20,30,255). -/
theorem claim_C3_witness :
    (make_background_transparent testImage).data[0]? =
      some (if 235 ≤ 255 ∧ 235 ≤ 255 ∧ 235 ≤ 255
            then (255, 255, 255, 0) else (255, 255, 255, 255)) ∧
    (make_background_transparent testImage).data[1]? =
      some (if 235 ≤ 10 ∧ 235 ≤ 20 ∧ 235 ≤ 30
            then (10, 20, 30, 0) else (10, 20, 30, 255)) :=
  ⟨(claim_C3 testImage 0 255 255 255 rfl).1,
   (claim_C3 testImage 1 10 20 30 rfl).1⟩

/-- C10: `make_background_transparent` returns an image with exactly the
width and height of its input, so the raster fed to the resize step is still
the centered square of side `min(w, h)` produced by the crop step. -/
theorem claim_C10 (img : RGBImage) (t : Nat) :
    (make_background_transparent img t).width = img.width ∧
    (make_background_transparent img t).height = img.height ∧
    (make_background_transparent img t).data.length = img.data.length ∧
    (make_background_transparent (squareCrop img) t).width =
      min img.width img.height ∧
    (make_background_transparent (squareCrop img) t).height =
      min img.width img.height := by
  refine ⟨rfl, rfl, ?_, ?_, ?_⟩
  · simp [make_background_transparent, convertRGBA]
  · show (squareCrop img).width = _
    by_cases h : img.width = img.height
    · simp [squareCrop, h]
    · simp only [squareCrop, if_pos h, cropRGB]
      omega
  · show (squareCrop img).height = _
    by_cases h : img.width = img.height
    · simp [squareCrop, h]
    · simp only [squareCrop, if_pos h, cropRGB]
      omega

/-- C8: if the source image does not exist (or cannot be decoded), the run
terminates with an unhandled error and no file in the output directory is
created or modified. -/
theorem claim_C8 (resize : RGBAImage → Nat → RGBAImage)
    (encode : RGBAImage → List Nat) (w : World) :
    (ReplaceAppIcon.main resize encode none w).2 = Except.error () ∧
    (ReplaceAppIcon.main resize encode none w).1.files = w.files :=
  ⟨rfl, rfl⟩

/-- C9: `main` creates the output directory before it attempts to open the
source image, so even a run that fails because the source is unreadable
leaves the output directory created; directory creation is never rolled
back. -/
theorem claim_C9 (resize : RGBAImage → Nat → RGBAImage)
    (encode : RGBAImage → List Nat) (load : Option RGBImage) (w : World) :
    (ReplaceAppIcon.main resize encode load w).1.dirExists = true := by
  cases load with
  | none => rfl
  | some im₀ => rfl

/-- C7: the pipeline is deterministic and idempotent: running `main` a second
time on the same load result maps the world produced by the first run to
exactly the same world (every output file is overwritten with identical
contents). -/
theorem claim_C7 (resize : RGBAImage → Nat → RGBAImage)
    (encode : RGBAImage → List Nat) (load : Option RGBImage) (w : World) :
    ReplaceAppIcon.main resize encode load
        (ReplaceAppIcon.main resize encode load w).1 =
      ReplaceAppIcon.main resize encode load w := by
  cases load with
  | none => rfl
  | some im₀ =>
      have hnd : ((((runLoop resize
          (make_background_transparent (squareCrop im₀)) SIZES).saved.map
            (fun e => (e.1, encode e.2))).map Prod.fst)).Nodup := by
        rw [mainWrites_names]
        exact specFilenames_nodup
      rw [main_some resize encode im₀ w]
      dsimp only
      rw [main_some resize encode im₀
        ⟨true, applyWrites w.files ((runLoop resize
          (make_background_transparent (squareCrop im₀)) SIZES).saved.map
            (fun e => (e.1, encode e.2)))⟩]
      dsimp only
      rw [applyWrites_idem _ hnd]

/-- C4: the resize operation is invoked exactly once per distinct pixel
dimension of the size specification, in first-occurrence order (40, 120 and
1024 appear in several entries but are resized only once), and every
filename of every entry is still written. -/
theorem claim_C4 (resize : RGBAImage → Nat → RGBAImage) (img : RGBAImage) :
    (runLoop resize img SIZES).calls =
      [20, 40, 60, 29, 58, 87, 80, 120, 180, 76, 152, 167, 1024,
       16, 32, 64, 128, 256, 512] ∧
    (runLoop resize img SIZES).calls.Nodup ∧
    (runLoop resize img SIZES).calls.Perm ((SIZES.map Prod.fst).dedup) ∧
    (runLoop resize img SIZES).saved.map Prod.fst = specFilenames := by
  refine ⟨runLoop_calls resize img, ?_, ?_, runLoop_saved_names resize img⟩
  · rw [runLoop_calls]
    decide
  · rw [runLoop_calls]
    decide

/-- C1 (amended): a complete successful run writes exactly one PNG per
filename enumerated in the size specification — 28 distinct files, not 22
(the specification has 22 entries, six of which list two filenames). -/
theorem claim_C1 (resize : RGBAImage → Nat → RGBAImage)
    (encode : RGBAImage → List Nat) (im₀ : RGBImage) :
    (runLoop resize (make_background_transparent (squareCrop im₀))
        SIZES).saved.map Prod.fst = specFilenames ∧
    specFilenames.length = 28 ∧
    specFilenames.Nodup ∧
    SIZES.length = 22 ∧
    (ReplaceAppIcon.main resize encode (some im₀)
        ⟨false, []⟩).1.files.length = 28 := by
  refine ⟨runLoop_saved_names _ _, specFilenames_length, specFilenames_nodup,
    SIZES_length, ?_⟩
  have hnd : ((((runLoop resize
      (make_background_transparent (squareCrop im₀)) SIZES).saved.map
        (fun e => (e.1, encode e.2))).map Prod.fst)).Nodup := by
    rw [mainWrites_names]
    exact specFilenames_nodup
  rw [main_some resize encode im₀ ⟨false, []⟩]
  dsimp only
  rw [applyWrites_canonical _ hnd]
  have hlen : (((runLoop resize
      (make_background_transparent (squareCrop im₀)) SIZES).saved.map
        (fun e => (e.1, encode e.2))).map Prod.fst).length =
      specFilenames.length := by
    rw [mainWrites_names]
  rw [List.length_append, List.length_reverse]
  rw [List.length_map] at hlen
  rw [hlen, specFilenames_length]
  rfl

/-- Counterexample to C1 as stated: at concrete inputs, a successful run on
an empty output directory leaves 28 files, not 22. -/
theorem claim_C1_counterexample :
    ((ReplaceAppIcon.main testResize testEncode (some testImage)
        ⟨false, []⟩).1.files.map Prod.fst).length = 28 ∧
    ¬ (((ReplaceAppIcon.main testResize testEncode (some testImage)
        ⟨false, []⟩).1.files.map Prod.fst).length = 22) := by
  constructor
  · decide
  · decide

/-- C5: after a successful run, for every (size, filenames) entry of the
size specification and every filename listed in it, the output directory
holds a file with that name whose contents are the encoding of a
size × size raster. -/
theorem claim_C5 (resize : RGBAImage → Nat → RGBAImage)
    (encode : RGBAImage → List Nat)
    (hres : ∀ (im : RGBAImage) (s : Nat),
      (resize im s).width = s ∧ (resize im s).height = s)
    (im₀ : RGBImage) (w : World) (s : Nat) (names : List String) (n : String)
    (hentry : (s, names) ∈ SIZES) (hn : n ∈ names) :
    ∃ imr : RGBAImage, imr.width = s ∧ imr.height = s ∧
      fsRead (ReplaceAppIcon.main resize encode (some im₀) w).1.files n =
        some (encode imr) := by
  refine ⟨resize (make_background_transparent (squareCrop im₀)) s,
    (hres _ s).1, (hres _ s).2, ?_⟩
  have hnd : ((((runLoop resize
      (make_background_transparent (squareCrop im₀)) SIZES).saved.map
        (fun e => (e.1, encode e.2))).map Prod.fst)).Nodup := by
    rw [mainWrites_names]
    exact specFilenames_nodup
  have hsaved : (n, resize (make_background_transparent (squareCrop im₀)) s) ∈
      (runLoop resize (make_background_transparent (squareCrop im₀))
        SIZES).saved :=
    saved_complete _ _ hentry hn
  have hmemws : (n, encode (resize
      (make_background_transparent (squareCrop im₀)) s)) ∈
      (runLoop resize (make_background_transparent (squareCrop im₀))
        SIZES).saved.map (fun e => (e.1, encode e.2)) :=
    List.mem_map.mpr ⟨(n, resize
      (make_background_transparent (squareCrop im₀)) s), hsaved, rfl⟩
  rw [main_some resize encode im₀ w]
  dsimp only
  exact fsRead_applyWrites_mem _ w.files n _ hnd hmemws

/-- Witness for C5: with concrete stand-ins for the resampler and encoder,
the file "icon-20.png" of the (20, ["icon-20.png"]) entry exists after a run
on the empty world and holds the encoding of a 20 × 20 raster. -/
theorem claim_C5_witness :
    ∃ imr : RGBAImage, imr.width = 20 ∧ imr.height = 20 ∧
      fsRead (ReplaceAppIcon.main testResize testEncode (some testImage)
          emptyWorld).1.files "icon-20.png" = some (testEncode imr) :=
  claim_C5 testResize testEncode (fun im s => ⟨rfl, rfl⟩) testImage
    emptyWorld 20 ["icon-20.png"] "icon-20.png" (by decide) (by decide)

/-- C6: any two output files whose filenames share the same pixel dimension
in the size specification have identical written contents, because the same
cached raster is encoded and written for each of them. -/
theorem claim_C6 (resize : RGBAImage → Nat → RGBAImage)
    (encode : RGBAImage → List Nat) (im₀ : RGBImage) (w : World)
    (n₁ n₂ : String) (s : Nat)
    (h₁ : specSize n₁ = some s) (h₂ : specSize n₂ = some s) :
    fsRead (ReplaceAppIcon.main resize encode (some im₀) w).1.files n₁ =
      fsRead (ReplaceAppIcon.main resize encode (some im₀) w).1.files n₂ ∧
    (fsRead (ReplaceAppIcon.main resize encode (some im₀) w).1.files
      n₁).isSome := by
  have hnd : ((((runLoop resize
      (make_background_transparent (squareCrop im₀)) SIZES).saved.map
        (fun e => (e.1, encode e.2))).map Prod.fst)).Nodup := by
    rw [mainWrites_names]
    exact specFilenames_nodup
  have hread : ∀ n : String, specSize n = some s →
      fsRead (ReplaceAppIcon.main resize encode (some im₀) w).1.files n =
        some (encode (resize
          (make_background_transparent (squareCrop im₀)) s)) := by
    intro n hn
    rcases specSize_eq_some hn with ⟨e, heS, hne, hes⟩
    have hsaved : (n, resize
        (make_background_transparent (squareCrop im₀)) s) ∈
        (runLoop resize (make_background_transparent (squareCrop im₀))
          SIZES).saved := by
      rcases e with ⟨es, enames⟩
      dsimp only at hne hes
      rw [← hes]
      exact saved_complete _ _ heS hne
    have hmemws : (n, encode (resize
        (make_background_transparent (squareCrop im₀)) s)) ∈
        (runLoop resize (make_background_transparent (squareCrop im₀))
          SIZES).saved.map (fun e => (e.1, encode e.2)) :=
      List.mem_map.mpr ⟨(n, resize
        (make_background_transparent (squareCrop im₀)) s), hsaved, rfl⟩
    rw [main_some resize encode im₀ w]
    dsimp only
    exact fsRead_applyWrites_mem _ w.files n _ hnd hmemws
  rw [hread n₁ h₁, hread n₂ h₂]
  exact ⟨rfl, rfl⟩

/-- Witness for C6: with concrete stand-ins, "icon-20@2x.png" and
"icon-20@2x-ipad.png" (both declared at 40 px) have identical contents
after a run on the empty world. -/
theorem claim_C6_witness :
    fsRead (ReplaceAppIcon.main testResize testEncode (some testImage)
        emptyWorld).1.files "icon-20@2x.png" =
      fsRead (ReplaceAppIcon.main testResize testEncode (some testImage)
        emptyWorld).1.files "icon-20@2x-ipad.png" :=
  (claim_C6 testResize testEncode testImage emptyWorld
    "icon-20@2x.png" "icon-20@2x-ipad.png" 40 (by decide) (by decide)).1
